import Mathlib

/-!
Verification development for the ModernTest single-header C++ test framework
(`include/ModernTest.hpp`).

Modelling conventions:
* A C++ `char` is a byte; we model a C++ `std::string` as a Lean `String`,
  with each Lean `Char` standing for one byte.  All behaviour relevant below
  (glob compilation, case folding, newline handling) is byte-wise in the
  source, and the model is exact on byte-valued characters.
* `std::regex` with `std::regex::icase` (ECMAScript grammar) is modelled by
  the token-list semantics `reMatchInit` / `reSearch` below: `regex_search`
  is an unanchored search, `.` matches any byte except a line terminator,
  and case-insensitive comparison lower-cases ASCII letters on both sides.
* Global mutable run state (`current_test_failed`, `failure_messages`) is
  modelled by explicit values: a matcher returns `Option String` (the
  failure message it appends, `none` on success), and a test body's
  observable effect on the run state is a `TestAction` value.
* Wall-clock timing (`duration_ms`, the `time` XML attributes) and file I/O
  are environment effects and are not part of the model; no claim below
  depends on them.
-/

namespace MT

/-! ## Filter matcher (`matches_filter`, ModernTest.hpp lines 185-218) -/

/-- A byte matched by the ECMAScript regex `.`: any character except a line
terminator.  (For byte strings the terminators are `\n` and `\r`.) -/
def isDotChar (c : Char) : Bool :=
  !(c == '\n' || c == '\r')

/-- Case-insensitive byte comparison as performed by `std::regex::icase`
(ASCII case folding). -/
def charEqIC (c d : Char) : Bool :=
  c.toLower == d.toLower

/-- One token of the regex produced by the glob-to-regex conversion in
`matches_filter`: `*` becomes `.*` (`Tok.star`), `?` becomes `.`
(`Tok.qmark`), and every other pattern byte - escaped if it is
regex-significant - denotes itself (`Tok.lit c`). -/
inductive Tok where
  | star : Tok
  | qmark : Tok
  | lit : Char → Tok
deriving DecidableEq

/-- The glob-to-regex conversion loop of `matches_filter`: `*` to `.*`,
`?` to `.`, the twelve regex-significant bytes to escaped (hence literal)
bytes, all other bytes to themselves.  Escaped and ordinary bytes both
denote a literal byte, so both map to `Tok.lit`.  The produced regex is
always syntactically valid, so the `catch` fallback of `matches_filter`
(substring containment) is dead code and is not modelled. -/
def compileGlob (p : List Char) : List Tok :=
  p.map fun c => if c == '*' then Tok.star else if c == '?' then Tok.qmark else Tok.lit c

/-- All suffixes of a byte list (including itself and the empty list). -/
def suffixes : List Char → List (List Char)
  | [] => [[]]
  | d :: cs => (d :: cs) :: suffixes cs

/-- The suffixes reachable from a byte list by removing a prefix consisting
only of `.`-matchable bytes: the candidate continuations of a `.*`. -/
def starSuffixes : List Char → List (List Char)
  | [] => [[]]
  | d :: cs => (d :: cs) :: (if isDotChar d then starSuffixes cs else [])

/-- Anchored-at-the-start regex matching for the token lists produced by
`compileGlob`: does the token list match some initial segment of the
input?  `.*` may consume any run of `.`-matchable bytes. -/
def reMatchInit : List Tok → List Char → Bool
  | [], _ => true
  | Tok.star :: ts, s => (starSuffixes s).any fun r => reMatchInit ts r
  | Tok.qmark :: _, [] => false
  | Tok.qmark :: ts, d :: cs => isDotChar d && reMatchInit ts cs
  | Tok.lit _ :: _, [] => false
  | Tok.lit c :: ts, d :: cs => charEqIC c d && reMatchInit ts cs

/-- The semantics of `std::regex_search`: the regex matches starting at some
position of the input. -/
def reSearch (ts : List Tok) (s : List Char) : Bool :=
  (suffixes s).any fun r => reMatchInit ts r

/-- ModernTest.hpp lines 185-210: an empty pattern matches everything;
otherwise the glob is converted to a regex and searched, unanchored and
case-insensitively, in the candidate name. -/
def matches_filter (name : String) (pattern : String) : Bool :=
  if pattern.isEmpty then true
  else reSearch (compileGlob pattern.data) name.data

/-- ModernTest.hpp line 23. -/
def default_suite_name : String := "ModernTest"

/-! ## Spec-side glob semantics (for refinement claims C1 and C10) -/

/-- Modelled from the words of claim C1: strict glob semantics, anchored and
case-sensitive - the empty pattern matches only by the separate empty-pattern
rule, `*` matches any run of characters, `?` matches exactly one character,
and every other pattern character matches only itself literally.  This is
the claim-side definition used to compare against `matches_filter`. -/
def specGlobStrict : List Char → List Char → Bool
  | [], s => s.isEmpty
  | c :: p, s =>
      if c == '*' then (suffixes s).any fun r => specGlobStrict p r
      else
        match s with
        | [] => false
        | d :: cs => (c == '?' || c == d) && specGlobStrict p cs

/-- Declarative glob semantics as actually implemented (used to state the
amended C1 and C10): case-insensitive, `*` matches any run of
non-line-terminator bytes, `?` matches exactly one non-line-terminator
byte, any other pattern byte matches itself up to ASCII letter case. -/
inductive GlobSpecCI : List Char → List Char → Prop where
  | nil : GlobSpecCI [] []
  | lit {c d : Char} {p s : List Char} :
      c ≠ '*' → c ≠ '?' → c.toLower = d.toLower →
      GlobSpecCI p s → GlobSpecCI (c :: p) (d :: s)
  | one {d : Char} {p s : List Char} :
      isDotChar d = true → GlobSpecCI p s → GlobSpecCI ('?' :: p) (d :: s)
  | starSkip {p s : List Char} :
      GlobSpecCI p s → GlobSpecCI ('*' :: p) s
  | starTake {d : Char} {p s : List Char} :
      isDotChar d = true → GlobSpecCI ('*' :: p) s → GlobSpecCI ('*' :: p) (d :: s)

/-! ## Mocking system (ModernTest.hpp lines 78-98) -/

/-- A `Mock<Ret(Args...)>`: the argument pack is modelled by a single type
`A` (the argument tuple), the return type by `R`.  `calls` is the call log,
`behavior` the optional delegate. -/
structure Mock (A : Type) (R : Type) where
  calls : List A := []
  behavior : Option (A → R) := Option.none

/-- The call operator of `Mock` (lines 90-94): push the argument tuple onto
the call log, then run the delegate if one is present, otherwise produce a
value-initialized default (`Ret{}`, modelled by `Inhabited.default`).  The
log push is evaluated first, exactly as in the source. -/
def Mock.call {A R : Type} [Inhabited R] (m : Mock A R) (a : A) : Mock A R × R :=
  let logged : Mock A R := { m with calls := m.calls ++ [a] }
  match logged.behavior with
  | Option.some f => (logged, f a)
  | Option.none => (logged, Inhabited.default)

/-! ## Assertion engine (ModernTest.hpp lines 100-182)

A matcher's observable effect on the process-wide run state (push one string
onto `failure_messages` and set `current_test_failed`) is modelled by an
`Option String` result: `some msg` when a failure is recorded with message
`msg`, `none` when the assertion succeeds and the state is untouched. -/

/-- The `Expectation<T>` value: actual value, call-site location, inversion
flag (default false). -/
structure Expectation (T : Type) where
  val : T
  locFile : String
  locLine : Nat
  inverted : Bool := false

/-- Fluent negation (line 110): toggles the inversion flag in place. -/
def Expectation.Not {T : Type} (e : Expectation T) : Expectation T :=
  { e with inverted := !e.inverted }

/-- The failure string recorded by `Expectation::fail` (lines 167-176):
the call-site location followed by the message. -/
def Expectation.failMsg {T : Type} (e : Expectation T) (msg : String) : String :=
  e.locFile ++ ":" ++ Nat.repr e.locLine ++ ": " ++ msg

/-- The shared relational-matcher helper `Expectation::check` (lines
148-165): the effective result is the raw comparison, flipped when
inverted; on effective failure the rendered message is recorded.  `rhsStr`
stands for the streamed rendering of the right-hand side. -/
def Expectation.check {T : Type} [ToString T] (e : Expectation T)
    (rhsStr : String) (op : String) (rawResult : Bool) : Option String :=
  let finalResult := if e.inverted then !rawResult else rawResult
  if !finalResult then
    Option.some (e.failMsg
      ((if e.inverted then "Expected NOT " else "Expected ")
        ++ "[" ++ toString e.val ++ "] " ++ op ++ " [" ++ rhsStr ++ "]"))
  else Option.none

/-- The `==` matcher (line 113). -/
def Expectation.opEq {T : Type} [ToString T] [DecidableEq T]
    (e : Expectation T) (rhs : T) : Option String :=
  e.check (toString rhs) "==" (decide (e.val = rhs))

/-- The `!=` matcher (line 114). -/
def Expectation.opNe {T : Type} [ToString T] [DecidableEq T]
    (e : Expectation T) (rhs : T) : Option String :=
  e.check (toString rhs) "!=" (decide (e.val ≠ rhs))

/-- The `>` matcher (line 115). -/
def Expectation.opGt {T : Type} [ToString T] [LinearOrder T]
    (e : Expectation T) (rhs : T) : Option String :=
  e.check (toString rhs) ">" (decide (e.val > rhs))

/-- The `<` matcher (line 116). -/
def Expectation.opLt {T : Type} [ToString T] [LinearOrder T]
    (e : Expectation T) (rhs : T) : Option String :=
  e.check (toString rhs) "<" (decide (e.val < rhs))

/-- The containment matcher `to_contain` (lines 119-128): `found` is
membership of the element in the sequence, and a failure is recorded
exactly when `inverted == found`. -/
def Expectation.to_contain {α : Type} [DecidableEq α]
    (e : Expectation (List α)) (element : α) : Option String :=
  let found := decide (element ∈ e.val)
  if e.inverted == found then
    Option.some (e.failMsg
      (if e.inverted then "Expected container NOT to contain element"
       else "Expected container to contain element"))
  else Option.none

/-- The emptiness matcher `is_empty` (lines 130-136): same rule against
`val.empty()`. -/
def Expectation.is_empty {α : Type} (e : Expectation (List α)) : Option String :=
  let empty := e.val.isEmpty
  if e.inverted == empty then
    Option.some (e.failMsg
      (if e.inverted then "Expected container NOT to be empty"
       else "Expected container to be empty"))
  else Option.none

/-- The mock call-count matcher `to_have_been_called_times` (lines 139-145):
same rule against `calls.size() == n`; the failure message carries the
actual call count. -/
def Expectation.to_have_been_called_times {A R : Type}
    (e : Expectation (Mock A R)) (n : Nat) : Option String :=
  let matchCount := e.val.calls.length == n
  if e.inverted == matchCount then
    Option.some (e.failMsg
      ("Mock call count mismatch. Actual: " ++ Nat.repr e.val.calls.length))
  else Option.none

/-! ## Registry and runner (ModernTest.hpp lines 36-74 and 278-445) -/

/-- Test status (line 37). -/
inductive TestStatus where
  | NORMAL : TestStatus
  | SKIP : TestStatus
  | ONLY : TestStatus
deriving DecidableEq

/-- Whether and how an exception escapes a test body: none, a
`std::exception` with a `what()` description, or anything else. -/
inductive ExnOutcome where
  | noExn : ExnOutcome
  | stdExn : String → ExnOutcome
  | otherExn : ExnOutcome
deriving DecidableEq

/-- The observable effect of invoking a test body from freshly reset run
state: the value of `current_test_failed` and `failure_messages` when the
body finishes (or when the exception escapes), together with the
exception outcome. -/
structure TestAction where
  failed : Bool := false
  msgs : List String := []
  exn : ExnOutcome := ExnOutcome.noExn
deriving DecidableEq

/-- A registered test (lines 39-45); `func` is the body's observable
effect, `file` and `line` the registration source location. -/
structure TestCase where
  name : String
  func : TestAction := {}
  status : TestStatus := TestStatus.NORMAL
  file : String := ""
  line : Nat := 0
deriving DecidableEq

/-- One run result (lines 47-55).  `duration_ms` (wall-clock time) is not
modelled. -/
structure TestResult where
  name : String
  file : String := ""
  line : Nat := 0
  passed : Bool := true
  skipped : Bool := false
  failures : List String := []
deriving DecidableEq

/-- `matches_test_filters` (lines 212-218): a test passes the filter when
its bare name or its suite-qualified name matches the pattern. -/
def matches_test_filters (filter : String) (t : TestCase) : Bool :=
  matches_filter t.name filter
    || matches_filter (default_suite_name ++ "." ++ t.name) filter

/-- The try/catch boundary around `test.func()` (lines 378-392): the pair of
(`current_test_failed`, `failure_messages`) after the body and its exception
handling. -/
def runBody (a : TestAction) : Bool × List String :=
  match a.exn with
  | ExnOutcome.noExn => (a.failed, a.msgs)
  | ExnOutcome.stdExn w => (true, a.msgs ++ ["Unhandled exception: " ++ w])
  | ExnOutcome.otherExn => (true, a.msgs ++ ["Unknown exception thrown"])

/-- The per-test part of the runner loop body (lines 357-415), after the
filter check: a skipped result for `SKIP` tests and for non-`ONLY` tests
when some test is `ONLY`; otherwise the body runs inside the exception
boundary and the result is assembled from the final failure state. -/
def execTest (hasOnly : Bool) (t : TestCase) : TestResult :=
  if t.status == TestStatus.SKIP || (hasOnly && t.status != TestStatus.ONLY) then
    { name := t.name, file := t.file, line := t.line, skipped := true }
  else
    let outcome := runBody t.func
    { name := t.name, file := t.file, line := t.line,
      passed := !outcome.1, skipped := false, failures := outcome.2 }

/-- Line 331: whether any registered test is `ONLY`. -/
def has_only (tests : List TestCase) : Bool :=
  tests.any fun t => t.status == TestStatus.ONLY

/-- The runner loop (lines 351-416): tests failing the filter are skipped
over entirely (`continue`); each remaining test contributes one result in
registration order. -/
def runTests (hasOnly : Bool) (filter : String) : List TestCase → List TestResult
  | [] => []
  | t :: ts =>
      if matches_test_filters filter t then
        execTest hasOnly t :: runTests hasOnly filter ts
      else
        runTests hasOnly filter ts

/-- The `failed` counter at the end of the loop: executed tests whose final
state was failed (lines 400-413). -/
def failedCount (rs : List TestResult) : Nat :=
  (rs.filter fun r => !r.skipped && !r.passed).length

/-- The `passed` counter. -/
def passedCount (rs : List TestResult) : Nat :=
  (rs.filter fun r => !r.skipped && r.passed).length

/-- The `skipped` counter. -/
def skippedCount (rs : List TestResult) : Nat :=
  (rs.filter fun r => r.skipped).length

/-- Number of results whose test body actually executed. -/
def executedCount (rs : List TestResult) : Nat :=
  (rs.filter fun r => !r.skipped).length

/-- The mutable flag/option globals set by `parse_args` (lines 22, 68-69,
278). -/
structure Config where
  test_filter_pattern : String := ""
  xml_output_path : String := ""
  use_colors : Bool := true
  show_help_only : Bool := false
deriving DecidableEq

/-- Byte-list prefix test, modelling `std::string::starts_with`. -/
def listIsInit : List Char → List Char → Bool
  | [], _ => true
  | _ :: _, [] => false
  | c :: p, d :: s => c == d && listIsInit p s

/-- String prefix test on the byte-list model of strings. -/
def strStarts (s pre : String) : Bool :=
  listIsInit pre.data s.data

/-- One iteration of the `parse_args` loop (lines 280-317), in source
order of the flag tests.  `--mt_list_tests` / `--gtest_list_tests` and
`--help` / `-h` both set `show_help_only`. -/
def parse_arg (cfg : Config) (arg : String) : Config :=
  if strStarts arg "--mt_filter=" then
    { cfg with test_filter_pattern := String.mk (arg.data.drop 12) }
  else if strStarts arg "--gtest_filter=" then
    { cfg with test_filter_pattern := String.mk (arg.data.drop 15) }
  else if strStarts arg "--mt_output=xml:" then
    { cfg with xml_output_path := String.mk (arg.data.drop 16) }
  else if strStarts arg "--gtest_output=xml:" then
    { cfg with xml_output_path := String.mk (arg.data.drop 19) }
  else if arg == "--mt_no_color" || arg == "--gtest_color=no" then
    { cfg with use_colors := false }
  else if arg == "--mt_list_tests" || arg == "--gtest_list_tests" then
    { cfg with show_help_only := true }
  else if arg == "--help" || arg == "-h" then
    { cfg with show_help_only := true }
  else cfg

/-- `parse_args` over the argument list (excluding `argv[0]`, which the
source loop skips). -/
def parse_args (args : List String) : Config :=
  args.foldl parse_arg {}

/-- `run_all_tests` (lines 320-445): parse the arguments; in help/list mode
return exit code 0 without touching the (initially empty) results;
otherwise run every filter-passing test and return exit code 1 exactly
when the `failed` counter is positive.  The returned pair is
(exit code, final contents of `get_results()`). -/
def run_all_tests (args : List String) (tests : List TestCase) : Nat × List TestResult :=
  let cfg := parse_args args
  if cfg.show_help_only then (0, [])
  else
    let results := runTests (has_only tests) cfg.test_filter_pattern tests
    (if failedCount results > 0 then 1 else 0, results)

/-! ## JUnit XML report (ModernTest.hpp lines 220-276)

The report is modelled as the structured document whose rendering
`write_junit_xml` prints: aggregate counts at the root `<testsuites>` node
and the single `<testsuite>` node, and one leaf per result.  The `time`
attributes (wall-clock) and the file stream are not modelled. -/

/-- `escape_xml` (lines 220-233) on one byte.  The apostrophe (byte 39) is
written `Char.ofNat 39`. -/
def escapeXmlChar (c : Char) : List Char :=
  if c == '&' then "&amp;".data
  else if c == '<' then "&lt;".data
  else if c == '>' then "&gt;".data
  else if c == '"' then "&quot;".data
  else if c == Char.ofNat 39 then "&apos;".data
  else [c]

/-- `escape_xml` (lines 220-233). -/
def escape_xml (s : String) : String :=
  String.mk (s.data.map escapeXmlChar).flatten

/-- One `<testcase>` leaf: its attributes and, exclusively, either a
skip marker or a (possibly empty) list of `<failure>` message attributes.
A passed leaf is the self-closing form: no marker, no failure entries. -/
structure JUnitLeaf where
  name : String
  file : String
  line : Nat
  skippedMark : Bool
  failureEntries : List String
deriving DecidableEq

/-- The leaf written for one result (lines 256-273): a skipped result gets
the skip marker; a failed result gets one `<failure>` entry per recorded
message; a passed result gets the bare self-closing element. -/
def mkLeaf (r : TestResult) : JUnitLeaf :=
  { name := escape_xml r.name,
    file := escape_xml r.file,
    line := r.line,
    skippedMark := r.skipped,
    failureEntries :=
      if r.skipped then []
      else if !r.passed then r.failures.map escape_xml
      else [] }

/-- The structured document: root and suite aggregates plus the leaves. -/
structure JUnitDoc where
  tests : Nat
  failures : Nat
  skipped : Nat
  suiteTests : Nat
  suiteFailures : Nat
  suiteSkipped : Nat
  leaves : List JUnitLeaf
deriving DecidableEq

/-- `write_junit_xml` (lines 235-276): the aggregate loop counts skipped
results and executed-but-failed results; the same three aggregates are
written at the root and at the suite node, followed by the leaves. -/
def write_junit_xml (results : List TestResult) : JUnitDoc :=
  let failures := (results.filter fun r => !r.skipped && !r.passed).length
  let skipped := (results.filter fun r => r.skipped).length
  { tests := results.length, failures := failures, skipped := skipped,
    suiteTests := results.length, suiteFailures := failures, suiteSkipped := skipped,
    leaves := results.map mkLeaf }

/-! ## Concrete fixtures used by witnesses and counterexamples -/

/-- A test body that runs to completion with no failure. -/
def passingAction : TestAction := {}

/-- A test body that records one assertion failure. -/
def failingAction : TestAction :=
  { failed := true, msgs := ["t.cpp:20: Expected [2] == [3]"] }

/-- A test body out of which a `std::exception` escapes. -/
def throwingAction : TestAction := { exn := ExnOutcome.stdExn "boom" }

/-- Fixture: a test marked `ONLY`. -/
def alphaOnly : TestCase :=
  { name := "Alpha", func := passingAction, status := TestStatus.ONLY, file := "t.cpp", line := 1 }

/-- Fixture: a normal test named Beta. -/
def betaNormal : TestCase :=
  { name := "Beta", func := passingAction, file := "t.cpp", line := 2 }

/-- Fixture: a normal test named Gamma. -/
def gammaNormal : TestCase :=
  { name := "Gamma", func := passingAction, file := "t.cpp", line := 3 }

/-- Fixture: three registered tests, exactly one marked `ONLY`. -/
def onlyTrio : List TestCase := [alphaOnly, betaNormal, gammaNormal]

/-- Fixture: a passing test named A. -/
def aTest : TestCase := { name := "A", func := passingAction, file := "t.cpp", line := 10 }

/-- Fixture: a failing test named B. -/
def bTest : TestCase := { name := "B", func := failingAction, file := "t.cpp", line := 20 }

/-- Fixture: a test whose body throws. -/
def cTest : TestCase := { name := "C", func := throwingAction, file := "t.cpp", line := 30 }

/-- Fixture: a skipped test named D. -/
def dTest : TestCase :=
  { name := "D", func := passingAction, status := TestStatus.SKIP, file := "t.cpp", line := 40 }

/-- Fixture: an expectation over a mock that was invoked once with 10. -/
def calledOnceExp : Expectation (Mock Nat Nat) :=
  { val := { calls := [10] }, locFile := "t.cpp", locLine := 3 }

/-- Fixture: a mock whose delegate squares its argument. -/
def sqMock : Mock Nat Nat := { behavior := Option.some fun x => x * x }

/-! ## Helper lemmas: suffix enumeration and glob semantics -/

theorem mem_suffixes {r s : List Char} : r ∈ suffixes s ↔ ∃ u, s = u ++ r := by
  induction s with
  | nil =>
    constructor
    · intro h
      simp only [suffixes, List.mem_singleton] at h
      exact ⟨[], by simp [h]⟩
    · rintro ⟨u, hu⟩
      rcases List.append_eq_nil.mp hu.symm with ⟨-, rfl⟩
      simp [suffixes]
  | cons d cs ih =>
    simp only [suffixes, List.mem_cons, ih]
    constructor
    · rintro (rfl | ⟨u, rfl⟩)
      · exact ⟨[], rfl⟩
      · exact ⟨d :: u, rfl⟩
    · rintro ⟨u, hu⟩
      cases u with
      | nil => exact Or.inl (by simpa using hu.symm)
      | cons x u =>
        obtain ⟨-, h2⟩ := List.cons.inj hu
        exact Or.inr ⟨u, h2⟩

theorem mem_starSuffixes {r s : List Char} :
    r ∈ starSuffixes s ↔ ∃ u, s = u ++ r ∧ ∀ c ∈ u, isDotChar c = true := by
  induction s with
  | nil =>
    constructor
    · intro h
      simp only [starSuffixes, List.mem_singleton] at h
      exact ⟨[], by simp [h]⟩
    · rintro ⟨u, hu, -⟩
      rcases List.append_eq_nil.mp hu.symm with ⟨-, rfl⟩
      simp [starSuffixes]
  | cons d cs ih =>
    constructor
    · intro h
      simp only [starSuffixes, List.mem_cons] at h
      rcases h with rfl | h
      · exact ⟨[], rfl, by simp⟩
      · by_cases hd : isDotChar d = true
        · rw [if_pos hd] at h
          obtain ⟨u, rfl, hu⟩ := ih.mp h
          refine ⟨d :: u, rfl, ?_⟩
          intro c hc
          rcases List.mem_cons.mp hc with rfl | hc
          · exact hd
          · exact hu c hc
        · rw [if_neg hd] at h
          exact absurd h (List.not_mem_nil r)
    · rintro ⟨u, hu, hdot⟩
      cases u with
      | nil =>
        simp only [List.nil_append] at hu
        simp [starSuffixes, hu]
      | cons x u =>
        obtain ⟨rfl, h2⟩ := List.cons.inj hu
        have hd : isDotChar d = true := hdot d (by simp)
        have : r ∈ starSuffixes cs := ih.mpr ⟨u, h2, fun c hc => hdot c (by simp [hc])⟩
        simp [starSuffixes, hd, this]

theorem globSpecCI_nil_iff {w : List Char} : GlobSpecCI [] w ↔ w = [] := by
  constructor
  · intro h
    cases h
    rfl
  · rintro rfl
    exact GlobSpecCI.nil

theorem globSpecCI_star_unfold {p w : List Char} (h : GlobSpecCI ('*' :: p) w) :
    ∃ a b, w = a ++ b ∧ (∀ c ∈ a, isDotChar c = true) ∧ GlobSpecCI p b := by
  generalize hq : '*' :: p = q at h
  induction h with
  | nil => exact absurd hq (by simp)
  | lit hc1 hc2 hcd h ih =>
    obtain ⟨h1, -⟩ := List.cons.inj hq
    exact absurd h1.symm hc1
  | one hd h ih =>
    obtain ⟨h1, -⟩ := List.cons.inj hq
    exact absurd h1 (by decide)
  | starSkip h ih =>
    obtain ⟨-, h2⟩ := List.cons.inj hq
    subst h2
    exact ⟨[], _, rfl, by simp, h⟩
  | starTake hd h ih =>
    obtain ⟨a, b, rfl, ha, hb⟩ := ih hq
    obtain ⟨-, h2⟩ := List.cons.inj hq
    refine ⟨_ :: a, b, rfl, ?_, hb⟩
    intro c hc
    rcases List.mem_cons.mp hc with rfl | hc
    · exact hd
    · exact ha c hc

theorem globSpecCI_star_fold {p a b : List Char}
    (ha : ∀ c ∈ a, isDotChar c = true) (hb : GlobSpecCI p b) :
    GlobSpecCI ('*' :: p) (a ++ b) := by
  induction a with
  | nil => exact GlobSpecCI.starSkip hb
  | cons d a ih =>
    exact GlobSpecCI.starTake (ha d (by simp))
      (ih fun c hc => ha c (by simp [hc]))

theorem globSpecCI_qmark_iff {p w : List Char} :
    GlobSpecCI ('?' :: p) w ↔
      ∃ d w', w = d :: w' ∧ isDotChar d = true ∧ GlobSpecCI p w' := by
  constructor
  · intro h
    cases h with
    | lit hc1 hc2 hcd h => exact absurd rfl hc2
    | one hd h => exact ⟨_, _, rfl, hd, h⟩
  · rintro ⟨d, w', rfl, hd, h⟩
    exact GlobSpecCI.one hd h

theorem globSpecCI_lit_iff {c : Char} {p w : List Char}
    (hc1 : c ≠ '*') (hc2 : c ≠ '?') :
    GlobSpecCI (c :: p) w ↔
      ∃ d w', w = d :: w' ∧ c.toLower = d.toLower ∧ GlobSpecCI p w' := by
  constructor
  · intro h
    cases h with
    | lit hl1 hl2 hcd h => exact ⟨_, _, rfl, hcd, h⟩
    | one hd h => exact absurd rfl hc2
    | starSkip h => exact absurd rfl hc1
    | starTake hd h => exact absurd rfl hc1
  · rintro ⟨d, w', rfl, hcd, h⟩
    exact GlobSpecCI.lit hc1 hc2 hcd h

theorem reMatchInit_compile_iff (p : List Char) : ∀ s : List Char,
    reMatchInit (compileGlob p) s = true ↔ ∃ w v, s = w ++ v ∧ GlobSpecCI p w := by
  induction p with
  | nil =>
    intro s
    constructor
    · intro _
      exact ⟨[], s, rfl, GlobSpecCI.nil⟩
    · intro _
      rfl
  | cons c p ih =>
    intro s
    by_cases hstar : c = '*'
    · subst hstar
      have hc : compileGlob ('*' :: p) = Tok.star :: compileGlob p := by
        simp [compileGlob]
      rw [hc]
      show (starSuffixes s).any (fun r => reMatchInit (compileGlob p) r) = true ↔ _
      rw [List.any_eq_true]
      constructor
      · rintro ⟨r, hr, hm⟩
        obtain ⟨u, rfl, hu⟩ := mem_starSuffixes.mp hr
        obtain ⟨w, v, rfl, hg⟩ := (ih r).mp hm
        exact ⟨u ++ w, v, by simp, globSpecCI_star_fold hu hg⟩
      · rintro ⟨w, v, rfl, hg⟩
        obtain ⟨a, b, rfl, ha, hb⟩ := globSpecCI_star_unfold hg
        refine ⟨b ++ v, mem_starSuffixes.mpr ⟨a, by simp, ha⟩, ?_⟩
        exact (ih (b ++ v)).mpr ⟨b, v, rfl, hb⟩
    · by_cases hq : c = '?'
      · subst hq
        have hc : compileGlob ('?' :: p) = Tok.qmark :: compileGlob p := by
          simp [compileGlob]
        rw [hc]
        cases s with
        | nil =>
          constructor
          · intro h
            exact absurd h (by simp [reMatchInit])
          · rintro ⟨w, v, hwv, hg⟩
            rcases List.append_eq_nil.mp hwv.symm with ⟨rfl, -⟩
            obtain ⟨d, w', hww, -, -⟩ := globSpecCI_qmark_iff.mp hg
            exact absurd hww (by simp)
        | cons d cs =>
          show (isDotChar d && reMatchInit (compileGlob p) cs) = true ↔ _
          rw [Bool.and_eq_true]
          constructor
          · rintro ⟨hd, hm⟩
            obtain ⟨w, v, rfl, hg⟩ := (ih cs).mp hm
            exact ⟨d :: w, v, rfl, GlobSpecCI.one hd hg⟩
          · rintro ⟨w, v, hwv, hg⟩
            obtain ⟨e, w', rfl, he, hg'⟩ := globSpecCI_qmark_iff.mp hg
            obtain ⟨rfl, h2⟩ := List.cons.inj hwv
            exact ⟨he, (ih cs).mpr ⟨w', v, h2, hg'⟩⟩
      · have hc : compileGlob (c :: p) = Tok.lit c :: compileGlob p := by
          simp [compileGlob, hstar, hq]
        rw [hc]
        cases s with
        | nil =>
          constructor
          · intro h
            exact absurd h (by simp [reMatchInit])
          · rintro ⟨w, v, hwv, hg⟩
            rcases List.append_eq_nil.mp hwv.symm with ⟨rfl, -⟩
            obtain ⟨d, w', hww, -, -⟩ := (globSpecCI_lit_iff hstar hq).mp hg
            exact absurd hww (by simp)
        | cons d cs =>
          show (charEqIC c d && reMatchInit (compileGlob p) cs) = true ↔ _
          rw [Bool.and_eq_true]
          constructor
          · rintro ⟨hd, hm⟩
            obtain ⟨w, v, rfl, hg⟩ := (ih cs).mp hm
            refine ⟨d :: w, v, rfl, ?_⟩
            exact GlobSpecCI.lit hstar hq (by simpa [charEqIC] using hd) hg
          · rintro ⟨w, v, hwv, hg⟩
            obtain ⟨e, w', rfl, he, hg'⟩ := (globSpecCI_lit_iff hstar hq).mp hg
            obtain ⟨rfl, h2⟩ := List.cons.inj hwv
            exact ⟨by simpa [charEqIC] using he, (ih cs).mpr ⟨w', v, h2, hg'⟩⟩

theorem reSearch_compile_iff (p s : List Char) :
    reSearch (compileGlob p) s = true ↔
      ∃ u w v, s = u ++ (w ++ v) ∧ GlobSpecCI p w := by
  unfold reSearch
  rw [List.any_eq_true]
  constructor
  · rintro ⟨r, hr, hm⟩
    obtain ⟨u, rfl⟩ := mem_suffixes.mp hr
    obtain ⟨w, v, rfl, hg⟩ := (reMatchInit_compile_iff p r).mp hm
    exact ⟨u, w, v, rfl, hg⟩
  · rintro ⟨u, w, v, rfl, hg⟩
    exact ⟨w ++ v, mem_suffixes.mpr ⟨u, rfl⟩,
      (reMatchInit_compile_iff p (w ++ v)).mpr ⟨w, v, rfl, hg⟩⟩

theorem matches_filter_chr {name pattern : String} (h : pattern ≠ "") :
    matches_filter name pattern = true ↔
      ∃ u w v, name.data = u ++ (w ++ v) ∧ GlobSpecCI pattern.data w := by
  have hne : pattern.isEmpty = false := by
    cases hh : pattern.isEmpty
    · rfl
    · exact absurd ((String.isEmpty_iff pattern).mp hh) h
  unfold matches_filter
  rw [hne]
  simp only [Bool.false_eq_true, if_false]
  exact reSearch_compile_iff pattern.data name.data

theorem globSpecCI_of_map_toLower {p w : List Char}
    (hp : ∀ c ∈ p, c ≠ '*' ∧ c ≠ '?')
    (h : p.map Char.toLower = w.map Char.toLower) :
    GlobSpecCI p w := by
  induction p generalizing w with
  | nil =>
    cases w with
    | nil => exact GlobSpecCI.nil
    | cons d w' => simp at h
  | cons c p ih =>
    cases w with
    | nil => simp at h
    | cons d w' =>
      simp only [List.map_cons, List.cons.injEq] at h
      exact GlobSpecCI.lit (hp c (by simp)).1 (hp c (by simp)).2 h.1
        (ih (fun x hx => hp x (by simp [hx])) h.2)

/-! ## Helper lemmas: the runner -/

theorem runTests_eq_filter_map (hasOnly : Bool) (filter : String) (ts : List TestCase) :
    runTests hasOnly filter ts
      = (ts.filter (matches_test_filters filter)).map (execTest hasOnly) := by
  induction ts with
  | nil => rfl
  | cons t ts ih =>
    cases h : matches_test_filters filter t
    · simp [runTests, List.filter_cons, h, ih]
    · simp [runTests, List.filter_cons, h, ih]

theorem execTest_triple (hasOnly : Bool) (t : TestCase) :
    (execTest hasOnly t).name = t.name ∧ (execTest hasOnly t).file = t.file
      ∧ (execTest hasOnly t).line = t.line := by
  unfold execTest
  split
  · exact ⟨rfl, rfl, rfl⟩
  · exact ⟨rfl, rfl, rfl⟩

theorem runTests_cons (hasOnly : Bool) (filter : String) (t : TestCase) (ts : List TestCase) :
    runTests hasOnly filter (t :: ts)
      = (if matches_test_filters filter t then [execTest hasOnly t] else [])
          ++ runTests hasOnly filter ts := by
  cases h : matches_test_filters filter t
  · simp [runTests, h]
  · simp [runTests, h]

theorem mem_runTests {hasOnly : Bool} {filter : String} {ts : List TestCase}
    {r : TestResult} (h : r ∈ runTests hasOnly filter ts) :
    ∃ t ∈ ts, matches_test_filters filter t = true ∧ r = execTest hasOnly t := by
  rw [runTests_eq_filter_map] at h
  obtain ⟨t, ht, rfl⟩ := List.mem_map.mp h
  obtain ⟨ht1, ht2⟩ := List.mem_filter.mp ht
  exact ⟨t, ht1, ht2, rfl⟩

theorem execTest_skip {hasOnly : Bool} {t : TestCase}
    (h : (t.status == TestStatus.SKIP || (hasOnly && t.status != TestStatus.ONLY)) = true) :
    execTest hasOnly t
      = { name := t.name, file := t.file, line := t.line, skipped := true } := by
  unfold execTest
  rw [if_pos h]

theorem execTest_run {hasOnly : Bool} {t : TestCase}
    (h : (t.status == TestStatus.SKIP || (hasOnly && t.status != TestStatus.ONLY)) = false) :
    execTest hasOnly t
      = { name := t.name, file := t.file, line := t.line,
          passed := !(runBody t.func).1, skipped := false,
          failures := (runBody t.func).2 } := by
  unfold execTest
  rw [if_neg (by simp [h])]

/-- Length of a filter over a map. -/
theorem filter_map_length {α β : Type} (f : α → β) (q : β → Bool) (l : List α) :
    ((l.map f).filter q).length = (l.filter fun x => q (f x)).length := by
  induction l with
  | nil => rfl
  | cons x l ih =>
    cases h : q (f x)
    · simp [List.filter_cons, h, ih]
    · simp [List.filter_cons, h, ih]

/-- Filter lengths agree when the predicates agree on the list. -/
theorem filter_length_congr {α : Type} {p q : α → Bool} {l : List α}
    (h : ∀ x ∈ l, p x = q x) : (l.filter p).length = (l.filter q).length := by
  induction l with
  | nil => rfl
  | cons x l ih =>
    have hx := h x (by simp)
    have ih' := ih fun y hy => h y (by simp [hy])
    cases hq : q x
    · simp [List.filter_cons, hx, hq, ih']
    · simp [List.filter_cons, hx, hq, ih']

theorem parse_arg_help_mono {cfg : Config} {arg : String}
    (h : cfg.show_help_only = true) : (parse_arg cfg arg).show_help_only = true := by
  unfold parse_arg
  split
  · exact h
  · split
    · exact h
    · split
      · exact h
      · split
        · exact h
        · split
          · exact h
          · split
            · rfl
            · split
              · rfl
              · exact h

theorem parse_arg_help_set {cfg : Config} {arg : String}
    (h : arg = "--help" ∨ arg = "-h" ∨ arg = "--mt_list_tests" ∨ arg = "--gtest_list_tests") :
    (parse_arg cfg arg).show_help_only = true := by
  rcases h with rfl | rfl | rfl | rfl
  · rfl
  · rfl
  · rfl
  · rfl

theorem parse_args_help_of_mem {args : List String}
    (h : ∃ a ∈ args, a = "--help" ∨ a = "-h"
          ∨ a = "--mt_list_tests" ∨ a = "--gtest_list_tests") :
    (parse_args args).show_help_only = true := by
  suffices hgen : ∀ (l : List String) (cfg : Config),
      ((∃ a ∈ l, a = "--help" ∨ a = "-h"
          ∨ a = "--mt_list_tests" ∨ a = "--gtest_list_tests")
        ∨ cfg.show_help_only = true) →
      (l.foldl parse_arg cfg).show_help_only = true by
    exact hgen args {} (Or.inl h)
  intro l
  induction l with
  | nil =>
    rintro cfg (⟨a, ha, -⟩ | hc)
    · exact absurd ha (List.not_mem_nil a)
    · exact hc
  | cons x l ih =>
    rintro cfg (⟨a, ha, hflag⟩ | hc)
    · rcases List.mem_cons.mp ha with rfl | ha'
      · exact ih _ (Or.inr (parse_arg_help_set hflag))
      · exact ih _ (Or.inl ⟨a, ha', hflag⟩)
    · exact ih _ (Or.inr (parse_arg_help_mono hc))

theorem matches_test_filters_congr {f : String} {t t' : TestCase} (h : t.name = t'.name) :
    matches_test_filters f t = matches_test_filters f t' := by
  unfold matches_test_filters
  rw [h]

theorem matches_filter_empty (name : String) : matches_filter name "" = true := by
  unfold matches_filter
  rw [if_pos]
  decide

theorem matches_test_filters_empty (t : TestCase) : matches_test_filters "" t = true := by
  simp [matches_test_filters, matches_filter_empty]

theorem execTest_not_only_skipped {t : TestCase} (h : t.status ≠ TestStatus.ONLY) :
    (execTest true t).skipped = true := by
  cases ht : t.status
  · simp [execTest, ht]
  · simp [execTest, ht]
  · exact absurd ht h

theorem expectation_not_not {T : Type} (e : Expectation T) : e.Not.Not = e := by
  cases e
  simp [Expectation.Not]

theorem leaf_indicator {tests : List TestCase} {filter : String}
    (hwf : ∀ t ∈ tests, t.func.failed = true → t.func.msgs ≠ [])
    {r : TestResult} (hr : r ∈ runTests (has_only tests) filter tests) :
    (!r.skipped && !r.passed) = !(mkLeaf r).failureEntries.isEmpty := by
  obtain ⟨t, ht, -, rfl⟩ := mem_runTests hr
  by_cases hskip :
      (t.status == TestStatus.SKIP || (has_only tests && t.status != TestStatus.ONLY)) = true
  · rw [execTest_skip hskip]
    simp [mkLeaf]
  · rw [execTest_run (by simpa using hskip)]
    cases hb : (runBody t.func).1
    · simp [mkLeaf]
    · have hmsgs : (runBody t.func).2 ≠ [] := by
        cases hexn : t.func.exn with
        | noExn =>
          have hrb : runBody t.func = (t.func.failed, t.func.msgs) := by
            simp [runBody, hexn]
          have hfail : t.func.failed = true := by
            rw [hrb] at hb
            exact hb
          rw [hrb]
          exact hwf t ht hfail
        | stdExn w => simp [runBody, hexn]
        | otherExn => simp [runBody, hexn]
      cases hms : (runBody t.func).2 with
      | nil => exact absurd hms hmsgs
      | cons m ms => simp [mkLeaf, hb, hms]

/-! ## Claim C1 -/

/-- Claim C1 counterexample: `matches_filter` does not implement plain glob
semantics in which every non-wildcard pattern character matches only itself
and the pattern must cover the whole candidate.  On the concrete input
(name "Basic Math", pattern "Math"), plain glob semantics (`specGlobStrict`,
written from the claim's words) rejects, but `matches_filter` accepts,
because the compiled regex is searched unanchored in the candidate. -/
theorem c1_counterexample :
    matches_filter "Basic Math" "Math" = true
      ∧ specGlobStrict "Math".data "Basic Math".data = false := by
  decide

/-- Claim C1, amended: `matches_filter` implements glob semantics applied as
an unanchored, case-insensitive search.  The empty pattern matches every
candidate; otherwise the pattern matches iff some contiguous substring of
the candidate matches the glob case-insensitively, where `*` matches any
run of non-line-terminator bytes, `?` matches exactly one such byte, and
every other pattern byte matches itself up to ASCII letter case
(regex-significant bytes are escaped and do not leak pattern semantics).
`matches_filter("Basic Math", "*Math*")` is true and
`matches_filter("Vector", "*Math*")` is false. -/
theorem c1_amended_glob_search :
    (∀ name : String, matches_filter name "" = true) ∧
    (∀ name pattern : String, pattern ≠ "" →
        (matches_filter name pattern = true ↔
          ∃ u w v, name.data = u ++ (w ++ v) ∧ GlobSpecCI pattern.data w)) ∧
    matches_filter "Basic Math" "*Math*" = true ∧
    matches_filter "Vector" "*Math*" = false := by
  refine ⟨matches_filter_empty, ?_, by decide, by decide⟩
  intro name pattern h
  exact matches_filter_chr h

/-- Witness for the amended C1 at a concrete input: the pattern "Math"
matches the name "xMathy" through the substring characterization. -/
theorem c1_amended_glob_search_witness : matches_filter "xMathy" "Math" = true := by
  refine (c1_amended_glob_search.2.1 "xMathy" "Math" (by decide)).mpr ?_
  refine ⟨['x'], "Math".data, ['y'], by decide, ?_⟩
  refine GlobSpecCI.lit (by decide) (by decide) rfl ?_
  refine GlobSpecCI.lit (by decide) (by decide) rfl ?_
  refine GlobSpecCI.lit (by decide) (by decide) rfl ?_
  refine GlobSpecCI.lit (by decide) (by decide) rfl ?_
  exact GlobSpecCI.nil

/-! ## Claim C10 -/

/-- Claim C10: for every non-empty pattern, `matches_filter` performs an
unanchored, case-insensitive search: it returns true whenever the glob
derived from the pattern matches some substring of the candidate in any
letter case; in particular a wildcard-free pattern matches every name that
contains it case-insensitively, not only names equal to it. -/
theorem c10_unanchored_icase_search :
    (∀ name pattern : String, pattern ≠ "" →
        (∃ u w v, name.data = u ++ (w ++ v) ∧ GlobSpecCI pattern.data w) →
        matches_filter name pattern = true) ∧
    (∀ name pattern : String, pattern ≠ "" →
        (∀ c ∈ pattern.data, c ≠ '*' ∧ c ≠ '?') →
        (∃ u v, name.data.map Char.toLower
            = u ++ (pattern.data.map Char.toLower ++ v)) →
        matches_filter name pattern = true) := by
  constructor
  · intro name pattern h hex
    exact (matches_filter_chr h).mpr hex
  · rintro name pattern h hwild ⟨u, v, hsplit⟩
    rcases List.map_eq_append_iff.mp hsplit with ⟨l1, l2, heq1, -, hmap2⟩
    rcases List.map_eq_append_iff.mp hmap2 with ⟨w, l3, heq2, hw, -⟩
    refine (matches_filter_chr h).mpr ⟨l1, w, l3, by rw [heq1, heq2], ?_⟩
    exact globSpecCI_of_map_toLower hwild hw.symm

/-- Witness for C10 at a concrete input: the wildcard-free pattern "math"
matches the name "Basic MATH" case-insensitively as a substring. -/
theorem c10_unanchored_icase_search_witness :
    matches_filter "Basic MATH" "math" = true := by
  refine c10_unanchored_icase_search.2 "Basic MATH" "math" (by decide) (by decide) ?_
  exact ⟨"basic ".data, [], by decide⟩

/-! ## Claim C2 -/

/-- Claim C2 counterexample: the Only-override does not act "regardless of
any filter pattern in effect".  With three registered tests (one marked
Only) and the filter pattern "Beta", which matches only the second test,
the run produces zero executed results and one skipped result - not one
executed and two skipped as the claim states. -/
theorem c2_counterexample :
    has_only onlyTrio = true ∧
    ¬(executedCount (runTests (has_only onlyTrio) "Beta" onlyTrio) = 1
        ∧ skippedCount (runTests (has_only onlyTrio) "Beta" onlyTrio) = 2) ∧
    executedCount (runTests (has_only onlyTrio) "Beta" onlyTrio) = 0 ∧
    skippedCount (runTests (has_only onlyTrio) "Beta" onlyTrio) = 1 := by
  decide

/-- Claim C2, amended: if any registered TestCase has status Only, every
filter-passing TestCase whose status is not Only is treated as Skipped,
overriding its own declared status; every run result comes from a
filter-passing test; and with an empty (absent) filter, three registered
tests of which the first is marked Only yield exactly one executed result
and two Skipped results.  (With a filter in effect, filtered-out tests
produce no result at all, so the scenario's counts hold only for filters
that pass all three tests.) -/
theorem c2_amended_only_override :
    (∀ t : TestCase, t.status ≠ TestStatus.ONLY → (execTest true t).skipped = true) ∧
    (∀ (hOnly : Bool) (filter : String) (tests : List TestCase) (r : TestResult),
        r ∈ runTests hOnly filter tests →
        ∃ t ∈ tests, matches_test_filters filter t = true ∧ r = execTest hOnly t) ∧
    (∀ t1 t2 t3 : TestCase, t1.status = TestStatus.ONLY →
        t2.status ≠ TestStatus.ONLY → t3.status ≠ TestStatus.ONLY →
        executedCount (runTests (has_only [t1, t2, t3]) "" [t1, t2, t3]) = 1 ∧
        skippedCount (runTests (has_only [t1, t2, t3]) "" [t1, t2, t3]) = 2) := by
  refine ⟨fun t h => execTest_not_only_skipped h, fun _ _ _ _ h => mem_runTests h, ?_⟩
  intro t1 t2 t3 h1 h2 h3
  have honly : has_only [t1, t2, t3] = true := by
    simp [has_only, h1]
  have hrun : runTests (has_only [t1, t2, t3]) "" [t1, t2, t3]
      = [execTest true t1, execTest true t2, execTest true t3] := by
    rw [honly]
    simp [runTests, matches_test_filters_empty]
  have hs1 : (execTest true t1).skipped = false := by
    simp [execTest, h1]
  have hs2 : (execTest true t2).skipped = true := execTest_not_only_skipped h2
  have hs3 : (execTest true t3).skipped = true := execTest_not_only_skipped h3
  rw [hrun]
  constructor
  · simp [executedCount, List.filter_cons, hs1, hs2, hs3]
  · simp [skippedCount, List.filter_cons, hs1, hs2, hs3]

/-- Witness for the amended C2 at concrete inputs: the fixture trio (Alpha
marked Only, Beta and Gamma normal) with no filter yields one executed and
two skipped results. -/
theorem c2_amended_only_override_witness :
    executedCount (runTests (has_only [alphaOnly, betaNormal, gammaNormal]) ""
        [alphaOnly, betaNormal, gammaNormal]) = 1 ∧
    skippedCount (runTests (has_only [alphaOnly, betaNormal, gammaNormal]) ""
        [alphaOnly, betaNormal, gammaNormal]) = 2 :=
  c2_amended_only_override.2.2 alphaOnly betaNormal gammaNormal rfl (by decide) (by decide)

/-! ## Claim C3 -/

/-- Claim C3: after a run, the number of TestResults equals the number of
registered TestCases whose name passes the filter (skipped included,
filtered-out excluded entirely); results correspond one-to-one and in
order to the filter-passing tests with equal name/sourceFile/sourceLine
triples; and no result carries the name of a filtered-out test. -/
theorem c3_results_match_filtered (filter : String) (tests : List TestCase) :
    (runTests (has_only tests) filter tests).length
        = (tests.filter (matches_test_filters filter)).length ∧
    List.Forall₂ (fun t r => r.name = t.name ∧ r.file = t.file ∧ r.line = t.line)
        (tests.filter (matches_test_filters filter))
        (runTests (has_only tests) filter tests) ∧
    (∀ t ∈ tests, matches_test_filters filter t = false →
        ∀ r ∈ runTests (has_only tests) filter tests, r.name ≠ t.name) := by
  refine ⟨?_, ?_, ?_⟩
  · rw [runTests_eq_filter_map]
    exact List.length_map _ _
  · rw [runTests_eq_filter_map]
    rw [List.forall₂_map_right_iff]
    rw [List.forall₂_same]
    intro t ht
    exact execTest_triple (has_only tests) t
  · intro t ht hfail r hr hname
    obtain ⟨t', -, hpass, rfl⟩ := mem_runTests hr
    have hn : t'.name = t.name := by
      rw [← hname]
      exact ((execTest_triple (has_only tests) t').1).symm
    rw [matches_test_filters_congr hn] at hpass
    rw [hpass] at hfail
    exact absurd hfail (by simp)

/-- Witness for C3 at concrete inputs: among the tests A and B with the
filter "A", one result is produced, and the result derived from A does not
carry B's name. -/
theorem c3_results_match_filtered_witness :
    (runTests (has_only [aTest, bTest]) "A" [aTest, bTest]).length
        = ([aTest, bTest].filter (matches_test_filters "A")).length ∧
    (execTest (has_only [aTest, bTest]) aTest).name ≠ bTest.name :=
  ⟨(c3_results_match_filtered "A" [aTest, bTest]).1,
    (c3_results_match_filtered "A" [aTest, bTest]).2.2 bTest (by decide) (by decide)
      (execTest (has_only [aTest, bTest]) aTest) (by decide)⟩

/-! ## Claim C4 -/

theorem isSome_ite_some {c : Bool} {s : String} :
    (if c = true then Option.some s else Option.none).isSome = c := by
  cases c
  · simp
  · simp

/-- Claim C4: for the containment matcher, the emptiness matcher and the
call-count matcher, a failure is recorded if and only if the inverted flag
equals the computed boolean predicate (element found / value empty /
call-log size equals n), and the call-count failure message contains the
literal actual call count. -/
theorem c4_xor_failure_rule {α A R : Type} [DecidableEq α] :
    (∀ (e : Expectation (List α)) (x : α),
        (e.to_contain x).isSome = (e.inverted == decide (x ∈ e.val))) ∧
    (∀ e : Expectation (List α),
        e.is_empty.isSome = (e.inverted == e.val.isEmpty)) ∧
    (∀ (e : Expectation (Mock A R)) (n : Nat),
        (e.to_have_been_called_times n).isSome
          = (e.inverted == (e.val.calls.length == n))) ∧
    (∀ (e : Expectation (Mock A R)) (n : Nat) (msg : String),
        e.to_have_been_called_times n = Option.some msg →
        ∃ a, msg = a ++ Nat.repr e.val.calls.length) := by
  refine ⟨?_, ?_, ?_, ?_⟩
  · intro e x
    simp only [Expectation.to_contain]
    exact isSome_ite_some
  · intro e
    simp only [Expectation.is_empty]
    exact isSome_ite_some
  · intro e n
    simp only [Expectation.to_have_been_called_times]
    exact isSome_ite_some
  · intro e n msg h
    simp only [Expectation.to_have_been_called_times] at h
    by_cases hc : (e.inverted == (e.val.calls.length == n)) = true
    · rw [if_pos hc] at h
      obtain rfl := Option.some.inj h
      refine ⟨e.failMsg "Mock call count mismatch. Actual: ", ?_⟩
      simp only [Expectation.failMsg, String.append_assoc]
    · rw [if_neg hc] at h
      exact absurd h (by simp)

/-- Witness for C4 at a concrete input: asking `calledExactly(2)` of a mock
called once fails, and the recorded message carries the actual count 1. -/
theorem c4_xor_failure_rule_witness :
    calledOnceExp.to_have_been_called_times 2
        = Option.some "t.cpp:3: Mock call count mismatch. Actual: 1" ∧
    ∃ a, "t.cpp:3: Mock call count mismatch. Actual: 1"
        = a ++ Nat.repr calledOnceExp.val.calls.length :=
  ⟨by decide,
    (@c4_xor_failure_rule Nat Nat Nat _).2.2.2 calledOnceExp 2
      "t.cpp:3: Mock call count mismatch. Actual: 1" (by decide)⟩

/-! ## Claim C5 -/

/-- Claim C5: every exception escaping a test body is caught at the
runner's boundary: a `std::exception` is converted to an appended failure
message "Unhandled exception: " plus its description, any other exception
to the generic message, the test is marked failed, and the loop shape
guarantees the remaining tests still run - one test's exception never
terminates the run. -/
theorem c5_exception_boundary :
    (∀ (a : TestAction) (w : String), a.exn = ExnOutcome.stdExn w →
        runBody a = (true, a.msgs ++ ["Unhandled exception: " ++ w])) ∧
    (∀ a : TestAction, a.exn = ExnOutcome.otherExn →
        runBody a = (true, a.msgs ++ ["Unknown exception thrown"])) ∧
    (∀ (hOnly : Bool) (t : TestCase),
        (t.status == TestStatus.SKIP || (hOnly && t.status != TestStatus.ONLY)) = false →
        t.func.exn ≠ ExnOutcome.noExn →
        (execTest hOnly t).passed = false) ∧
    (∀ (hOnly : Bool) (filter : String) (t : TestCase) (ts : List TestCase),
        runTests hOnly filter (t :: ts)
          = (if matches_test_filters filter t then [execTest hOnly t] else [])
              ++ runTests hOnly filter ts) := by
  refine ⟨?_, ?_, ?_, runTests_cons⟩
  · intro a w h
    simp [runBody, h]
  · intro a h
    simp [runBody, h]
  · intro hOnly t hsf hexn
    rw [execTest_run hsf]
    cases hexn' : t.func.exn with
    | noExn => exact absurd hexn' hexn
    | stdExn w => simp [runBody, hexn']
    | otherExn => simp [runBody, hexn']

/-- Witness for C5 at a concrete input: a body that throws
`std::exception` with description "boom" yields the prefixed failure
message and a failed, non-terminating run step. -/
theorem c5_exception_boundary_witness :
    runBody throwingAction = (true, ["Unhandled exception: " ++ "boom"]) ∧
    (execTest false cTest).passed = false :=
  ⟨c5_exception_boundary.1 throwingAction "boom" rfl,
    c5_exception_boundary.2.2.1 false cTest (by decide) (by decide)⟩

/-! ## Claim C6 -/

/-- Claim C6: `run_all_tests` returns 0 iff zero tests failed in the run
(including the all-skipped case) and 1 iff at least one test failed; when
the help flag or the list-tests flag is given it returns 0 without
executing any test. -/
theorem c6_exit_code (args : List String) (tests : List TestCase) :
    ((run_all_tests args tests).1 = 0 ↔ failedCount (run_all_tests args tests).2 = 0) ∧
    ((run_all_tests args tests).1 = 1 ↔ 1 ≤ failedCount (run_all_tests args tests).2) ∧
    ((∃ a ∈ args, a = "--help" ∨ a = "-h"
        ∨ a = "--mt_list_tests" ∨ a = "--gtest_list_tests") →
      (run_all_tests args tests).1 = 0 ∧ (run_all_tests args tests).2 = []) := by
  by_cases hcfg : (parse_args args).show_help_only = true
  · refine ⟨?_, ?_, ?_⟩
    · simp [run_all_tests, hcfg, failedCount]
    · simp [run_all_tests, hcfg, failedCount]
    · intro hflag
      simp [run_all_tests, hcfg]
  · have hc : (parse_args args).show_help_only = false := by
      simpa using hcfg
    have hrw : run_all_tests args tests
        = (if failedCount (runTests (has_only tests)
              (parse_args args).test_filter_pattern tests) > 0 then 1 else 0,
           runTests (has_only tests) (parse_args args).test_filter_pattern tests) := by
      simp [run_all_tests, hc]
    rw [hrw]
    by_cases hf : failedCount (runTests (has_only tests)
        (parse_args args).test_filter_pattern tests) = 0
    · rw [if_neg (by simp [hf])]
      exact ⟨by simp [hf], by simp [hf],
        fun hflag => absurd (parse_args_help_of_mem hflag) (by simp [hc])⟩
    · rw [if_pos (Nat.pos_of_ne_zero hf)]
      exact ⟨by simp [hf], by simp [Nat.one_le_iff_ne_zero, hf],
        fun hflag => absurd (parse_args_help_of_mem hflag) (by simp [hc])⟩

/-- Witness for C6 at a concrete input: in list-tests mode the runner
returns exit code 0 and executes nothing, even though a failing test is
registered. -/
theorem c6_exit_code_witness :
    (run_all_tests ["--mt_list_tests"] [bTest]).1 = 0 ∧
    (run_all_tests ["--mt_list_tests"] [bTest]).2 = [] :=
  (c6_exit_code ["--mt_list_tests"] [bTest]).2.2
    ⟨"--mt_list_tests", by decide, Or.inr (Or.inr (Or.inl rfl))⟩

/-! ## Claim C7 -/

/-- Claim C7: invoking a Mock appends the argument tuple to its call log
(after one invocation with 10 the log is `[10]`, size 1, entry 0 equal to
10), then invokes the delegate if present; with no delegate a
value-initialized default of the return type is produced; the logged state
is constructed before the delegate is consulted, as in the source. -/
theorem c7_mock_call_logs_then_delegates {A R : Type} [Inhabited R] :
    (∀ (m : Mock A R) (a : A), (m.call a).1.calls = m.calls ++ [a]) ∧
    (∀ (m : Mock A R) (a : A) (f : A → R),
        m.behavior = Option.some f → (m.call a).2 = f a) ∧
    (∀ (m : Mock A R) (a : A),
        m.behavior = Option.none → (m.call a).2 = Inhabited.default) ∧
    ((({} : Mock Nat Nat).call 10).1.calls = [10] ∧
      (({} : Mock Nat Nat).call 10).1.calls.length = 1 ∧
      (({} : Mock Nat Nat).call 10).1.calls[0]? = Option.some 10 ∧
      (({} : Mock Nat Nat).call 10).2 = 0) := by
  refine ⟨?_, ?_, ?_, by decide⟩
  · intro m a
    cases hb : m.behavior
    · simp [Mock.call, hb]
    · simp [Mock.call, hb]
  · intro m a f hb
    simp [Mock.call, hb]
  · intro m a hb
    simp [Mock.call, hb]

/-- Witness for C7 at a concrete input: a mock with a squaring delegate,
invoked with 10, logs the call and returns the delegate's result. -/
theorem c7_mock_call_logs_then_delegates_witness :
    (sqMock.call 10).2 = 100 ∧ (sqMock.call 10).1.calls = [10] :=
  ⟨c7_mock_call_logs_then_delegates.2.1 sqMock 10 (fun x => x * x) rfl,
    c7_mock_call_logs_then_delegates.1 sqMock 10⟩

/-! ## Claim C8 -/

/-- Claim C8: applying negation twice to an Expectation yields the same
effective outcome as applying it zero times, for every matcher and every
actual/expected value - negation is a boolean flip of the inverted flag,
not a stack. -/
theorem c8_double_negation {T U A R : Type} [ToString U] [DecidableEq U] [LinearOrder U] :
    (∀ e : Expectation T, e.Not.Not = e) ∧
    (∀ (e : Expectation U) (rhs : U),
        e.Not.Not.opEq rhs = e.opEq rhs ∧ e.Not.Not.opNe rhs = e.opNe rhs ∧
        e.Not.Not.opGt rhs = e.opGt rhs ∧ e.Not.Not.opLt rhs = e.opLt rhs) ∧
    (∀ (e : Expectation (List U)) (x : U),
        e.Not.Not.to_contain x = e.to_contain x) ∧
    (∀ e : Expectation (List U), e.Not.Not.is_empty = e.is_empty) ∧
    (∀ (e : Expectation (Mock A R)) (n : Nat),
        e.Not.Not.to_have_been_called_times n = e.to_have_been_called_times n) := by
  refine ⟨expectation_not_not, ?_, ?_, ?_, ?_⟩
  · intro e rhs
    rw [expectation_not_not]
    exact ⟨rfl, rfl, rfl, rfl⟩
  · intro e x
    rw [expectation_not_not]
  · intro e
    rw [expectation_not_not]
  · intro e n
    rw [expectation_not_not]

/-! ## Claim C9 -/

/-- Claim C9: in every structured report produced from a run's results, the
aggregate failed-count written at the root (and at the suite node) equals
the number of leaf testcase entries carrying at least one failure message
entry.  The hypothesis states that test bodies report failure through the
assertion engine, which always couples the failed flag with at least one
recorded message. -/
theorem c9_report_failed_count (filter : String) (tests : List TestCase)
    (hwf : ∀ t ∈ tests, t.func.failed = true → t.func.msgs ≠ []) :
    (write_junit_xml (runTests (has_only tests) filter tests)).failures
        = ((write_junit_xml (runTests (has_only tests) filter tests)).leaves.filter
            fun l => !l.failureEntries.isEmpty).length ∧
    (write_junit_xml (runTests (has_only tests) filter tests)).suiteFailures
        = ((write_junit_xml (runTests (has_only tests) filter tests)).leaves.filter
            fun l => !l.failureEntries.isEmpty).length := by
  have key : ((runTests (has_only tests) filter tests).filter
        fun r => !r.skipped && !r.passed).length
      = (((runTests (has_only tests) filter tests).map mkLeaf).filter
          fun l => !l.failureEntries.isEmpty).length := by
    rw [filter_map_length]
    exact filter_length_congr fun r hr => leaf_indicator hwf hr
  constructor
  · simpa [write_junit_xml] using key
  · simpa [write_junit_xml] using key

/-- Witness for C9 at a concrete input: a run with one passing, one
failing, and one skipped test produces a report whose failed-count equals
its number of failure-carrying leaves. -/
theorem c9_report_failed_count_witness :
    (write_junit_xml (runTests (has_only [aTest, bTest, dTest]) ""
        [aTest, bTest, dTest])).failures
      = ((write_junit_xml (runTests (has_only [aTest, bTest, dTest]) ""
          [aTest, bTest, dTest])).leaves.filter
            fun l => !l.failureEntries.isEmpty).length :=
  (c9_report_failed_count "" [aTest, bTest, dTest] (by decide)).1

end MT
